import Mathlib

/-
Verification development for the raymarcher repository (Rust).

Floating-point values (f64) are modelled as real numbers; unsigned 32-bit
integers are modelled as naturals with the operations that can underflow or
panic made explicit.  Code paths that panic in Rust (expect, integer
underflow) are modelled by Option, with none standing for the panic.
-/

noncomputable section

/-- Color is the Rust type alias (u8, u8, u8); channel values are naturals. -/
abbrev Color : Type := Nat × Nat × Nat

/-- Vector3d of f64 from the vector3d crate, modelled over the reals. -/
structure V3d where
  x : ℝ
  y : ℝ
  z : ℝ

instance : Add V3d := ⟨fun a b => ⟨a.x + b.x, a.y + b.y, a.z + b.z⟩⟩

instance : Sub V3d := ⟨fun a b => ⟨a.x - b.x, a.y - b.y, a.z - b.z⟩⟩

instance : HMul V3d ℝ V3d := ⟨fun v s => ⟨v.x * s, v.y * s, v.z * s⟩⟩

instance : HDiv V3d ℝ V3d := ⟨fun v s => ⟨v.x / s, v.y / s, v.z / s⟩⟩

/-- Dot product, as in the vector3d crate. -/
def V3d.dot (a b : V3d) : ℝ := a.x * b.x + a.y * b.y + a.z * b.z

/-- Squared norm (vector3d crate norm2). -/
def V3d.norm2 (v : V3d) : ℝ := v.x * v.x + v.y * v.y + v.z * v.z

/-- src/vec_util.rs normalize: v / sqrt(v.norm2()). -/
def vec_util.normalize (v : V3d) : V3d := v / Real.sqrt v.norm2

/-- src/vec_util.rs length: sqrt(v.norm2()). -/
def vec_util.length (v : V3d) : ℝ := Real.sqrt v.norm2

/-- A Rust trait object Box of dyn SceneObject: a record of the two methods. -/
structure SceneObject where
  get_sdf : V3d → ℝ
  get_color : Color

/-- src/scene.rs Sphere. -/
structure Sphere where
  center : V3d
  color : Color

/-- Sphere get_sdf: sqrt((center - p).norm2()) - 2. -/
def Sphere.get_sdf (s : Sphere) (p : V3d) : ℝ :=
  Real.sqrt ((s.center - p).norm2) - 2

/-- Sphere get_color. -/
def Sphere.get_color (s : Sphere) : Color := s.color

/-- Sphere as a trait object. -/
def Sphere.toSceneObject (s : Sphere) : SceneObject :=
  ⟨s.get_sdf, s.get_color⟩

/-- src/scene.rs ExclusionObject: two boxed sub-objects. -/
structure ExclusionObject where
  a : SceneObject
  b : SceneObject

/-- ExclusionObject get_sdf: f64::max(a.get_sdf(p), -b.get_sdf(p)). -/
def ExclusionObject.get_sdf (e : ExclusionObject) (p : V3d) : ℝ :=
  max (e.a.get_sdf p) (-(e.b.get_sdf p))

/-- ExclusionObject get_color: the constant (100, 100, 100). -/
def ExclusionObject.get_color (_e : ExclusionObject) : Color := (100, 100, 100)

/-- ExclusionObject as a trait object. -/
def ExclusionObject.toSceneObject (e : ExclusionObject) : SceneObject :=
  ⟨e.get_sdf, e.get_color⟩

/-- src/scene.rs Sierpinski. -/
structure Sierpinski where
  color : Color

namespace Sierpinski

/-- The SCALE constant of Sierpinski get_sdf. -/
def SCALE : ℝ := 1.85

/-- Attractor a1 = (1, 1, 1). -/
def a1 : V3d := ⟨1, 1, 1⟩

/-- Attractor a2 = (-1, -1, 1). -/
def a2 : V3d := ⟨-1, -1, 1⟩

/-- Attractor a3 = (1, -1, -1). -/
def a3 : V3d := ⟨1, -1, -1⟩

/-- Attractor a4 = (-1, 1, -1). -/
def a4 : V3d := ⟨-1, 1, -1⟩

/-- One iteration of the while-loop body of Sierpinski get_sdf: the
if-chain choosing the nearest attractor (a later attractor replaces the
current one only when strictly closer), then z * SCALE - c * (SCALE - 1). -/
def step (z : V3d) : V3d :=
  let cd1 : V3d × ℝ := (a1, vec_util.length (z - a1))
  let d2 := vec_util.length (z - a2)
  let cd2 : V3d × ℝ := if d2 < cd1.2 then (a2, d2) else cd1
  let d3 := vec_util.length (z - a3)
  let cd3 : V3d × ℝ := if d3 < cd2.2 then (a3, d3) else cd2
  let d4 := vec_util.length (z - a4)
  let cd4 : V3d × ℝ := if d4 < cd3.2 then (a4, d4) else cd3
  z * SCALE - cd4.1 * (SCALE - 1)

/-- The while-loop while n < 10, counted down by fuel. -/
def loop : ℕ → V3d → V3d
  | 0, z => z
  | n + 1, z => loop n (step z)

/-- Sierpinski get_sdf: run the loop 10 times from the query point, then
length(z) * powf(SCALE, -10). -/
def get_sdf (_s : Sierpinski) (z1 : V3d) : ℝ :=
  vec_util.length (loop 10 z1) * Real.rpow SCALE (-(10 : ℝ))

/-- Sierpinski get_color. -/
def get_color (s : Sierpinski) : Color := s.color

end Sierpinski

/-- Sierpinski as a trait object. -/
def Sierpinski.toSceneObject (s : Sierpinski) : SceneObject :=
  ⟨s.get_sdf, s.get_color⟩

/-- Rust Iterator::min_by semantics: the accumulator is replaced only when
the candidate compares strictly below it, so the first minimal element of
the list wins ties; none on the empty list (the caller panics via expect). -/
def minByFirst {α : Type} (f : α → ℝ) : List α → Option α
  | [] => none
  | x :: xs => some (xs.foldl (fun acc y => if f y < f acc then y else acc) x)

/-- Rust Iterator::max_by semantics: the accumulator is kept only when the
candidate compares strictly below it, so the last maximal element of the
list wins ties; none on the empty list. -/
def maxByLast : List ℝ → Option ℝ
  | [] => none
  | x :: xs => some (xs.foldl (fun acc y => if y < acc then acc else y) x)

/-- src/scene.rs Scene: an ordered collection of boxed objects and a
background color. -/
structure Scene where
  objects : List SceneObject
  background_color : Color

/-- Scene sdf: map objects to distances, then min_by (none models the
expect panic on an empty scene; NaN cannot arise over the reals). -/
def Scene.sdf (s : Scene) (p : V3d) : Option ℝ :=
  minByFirst id (s.objects.map fun obj => obj.get_sdf p)

/-- Scene sdf_with_color: map objects to (distance, color) pairs, then
min_by comparing the first components. -/
def Scene.sdf_with_color (s : Scene) (p : V3d) : Option (ℝ × Color) :=
  minByFirst Prod.fst (s.objects.map fun obj => (obj.get_sdf p, obj.get_color))

/-- Total real-valued version of Scene.sdf used in specification
statements; it agrees with Scene.sdf on nonempty scenes. -/
def Scene.sdfD (s : Scene) (p : V3d) : ℝ := (s.sdf p).getD 0

/-- src/main.rs RayMarcher configuration (aspect_ratio is called aspect
here). -/
structure RayMarcher where
  ray_dist_epsilon : ℝ
  normal_estimation_epsilon : ℝ
  max_steps : ℕ
  aspect : ℝ
  image_width : ℕ

/-- The Default instance of RayMarcher from src/main.rs. -/
def RayMarcher.default : RayMarcher :=
  { ray_dist_epsilon := 1e-6
    normal_estimation_epsilon := 0.1
    max_steps := 100
    image_width := 400
    aspect := 16 / 9 }

/-- The for-loop of send_ray_dist, fuel counting the remaining steps of
0..max_steps: evaluate the scene SDF (with color) at origin +
direction * depth; return depth if the distance is below the epsilon,
otherwise add the distance to depth; return -1 when the steps run out.
none models the panic of sdf_with_color on an empty scene. -/
def sendLoop (rm : RayMarcher) (scene : Scene) (origin direction : V3d) :
    ℕ → ℝ → Option ℝ
  | 0, _ => some (-1)
  | fuel + 1, depth =>
    match scene.sdf_with_color (origin + direction * depth) with
    | none => none
    | some dc =>
      if dc.1 < rm.ray_dist_epsilon then some depth
      else sendLoop rm scene origin direction fuel (depth + dc.1)

/-- src/main.rs RayMarcher::send_ray_dist. -/
def RayMarcher.send_ray_dist (rm : RayMarcher) (origin direction : V3d)
    (scene : Scene) : Option ℝ :=
  sendLoop rm scene origin direction rm.max_steps 0

/-- Instrumented variant of sendLoop that also counts how many times the
scene SDF has been evaluated. -/
def sendLoopC (rm : RayMarcher) (scene : Scene) (origin direction : V3d) :
    ℕ → ℝ → ℕ → Option (ℝ × ℕ)
  | 0, _, c => some (-1, c)
  | fuel + 1, depth, c =>
    match scene.sdf_with_color (origin + direction * depth) with
    | none => none
    | some dc =>
      if dc.1 < rm.ray_dist_epsilon then some (depth, c + 1)
      else sendLoopC rm scene origin direction fuel (depth + dc.1) (c + 1)

/-- send_ray_dist instrumented with the number of SDF evaluations. -/
def RayMarcher.send_ray_dist_count (rm : RayMarcher) (origin direction : V3d)
    (scene : Scene) : Option (ℝ × ℕ) :=
  sendLoopC rm scene origin direction rm.max_steps 0 0

/-- Specification-side depth sequence of the sphere-tracing loop, starting
from an arbitrary depth d: each step adds the scene SDF value at origin +
direction * depth to the depth. -/
def depthFrom (scene : Scene) (origin direction : V3d) (d : ℝ) : ℕ → ℝ
  | 0 => d
  | k + 1 =>
    depthFrom scene origin direction
      (d + scene.sdfD (origin + direction * d)) k

/-- src/camera.rs Camera. -/
structure Camera where
  center : V3d
  viewport_width : ℝ
  viewport_height : ℝ
  focal_length : ℝ

/-- src/camera.rs RayGenerator state: derived vectors plus the pixel
cursor; image_width, image_height, x and y are u32 values. -/
structure RayGenerator where
  origin : V3d
  horizontal : V3d
  vertical : V3d
  lower_left_corner : V3d
  image_width : ℕ
  image_height : ℕ
  x : ℕ
  y : ℕ

/-- RayGenerator::new: the initial cursor row is image_height - 1 in u32
arithmetic, so image_height = 0 underflows; none models that panic. -/
def RayGenerator.new (cam : Camera) (image_width image_height : ℕ) :
    Option RayGenerator :=
  let horizontal := V3d.mk cam.viewport_width 0 0
  let vertical := V3d.mk 0 cam.viewport_height 0
  if image_height = 0 then none
  else
    some
      { origin := cam.center
        horizontal := horizontal
        vertical := vertical
        lower_left_corner :=
          cam.center - V3d.mk 0 0 cam.focal_length - horizontal / (2 : ℝ)
            - vertical / (2 : ℝ)
        image_width := image_width
        image_height := image_height
        x := 0
        y := image_height - 1 }

/-- RayGenerator::next.  Outer none models a panic: the u32 subtractions
image_height - 1 and image_width - 1 underflow when the corresponding
dimension is 0.  some none is an exhausted iterator; some (some (d, g))
yields the direction d with successor state g (the cursor advances by
x += 1, wrapping to the next row when it passes image_width). -/
def RayGenerator.next (g : RayGenerator) :
    Option (Option (V3d × RayGenerator)) :=
  if g.y = 0 ∧ g.image_width ≤ g.x then some none
  else if g.image_height = 0 ∨ g.image_width = 0 then none
  else
    let v : ℝ := (g.y : ℝ) / ((g.image_height - 1 : ℕ) : ℝ)
    let u : ℝ := (g.x : ℝ) / ((g.image_width - 1 : ℕ) : ℝ)
    let screen_v := g.lower_left_corner + g.horizontal * u + g.vertical * v
    let direction := vec_util.normalize (screen_v - g.origin)
    if g.image_width ≤ g.x + 1 ∧ 0 < g.y then
      some (some (direction, { g with x := 0, y := g.y - 1 }))
    else
      some (some (direction, { g with x := g.x + 1 }))

/-- Drain up to fuel elements from a RayGenerator into a list, none
propagating a panic of next. -/
def runGen : ℕ → RayGenerator → Option (List V3d)
  | 0, _ => some []
  | fuel + 1, g =>
    match g.next with
    | none => none
    | some none => some []
    | some (some (d, g1)) => (runGen fuel g1).map (fun l => d :: l)

/-- src/main.rs Image. -/
structure Image where
  pixels : List Color
  image_width : ℕ
  image_height : ℕ

/-- Rust saturating cast from f64 to u32: truncate toward zero, clamping
into the u32 range. -/
def f64_as_u32 (r : ℝ) : ℕ := min 4294967295 (Int.toNat (Int.floor r))

/-- Rust saturating cast from f64 to u8: truncate toward zero, clamping
into the u8 range. -/
def f64_as_u8 (r : ℝ) : ℕ := min 255 (Int.toNat (Int.floor r))

/-- Turn a list of fallible results into a fallible list, as collecting a
Rust iterator whose closure may panic. -/
def seqOption {α : Type} : List (Option α) → Option (List α)
  | [] => some []
  | none :: _ => none
  | some a :: rest =>
    match seqOption rest with
    | none => none
    | some l => some (a :: l)

/-- The first half of RayMarcher::march: derive image_height from
image_width and the aspect ratio by a truncating f64-to-u32 cast, build
the ray generator, and send one ray per generated direction, collecting
the per-ray depths.  The fuel image_width * image_height + 1 exceeds the
number of elements the generator can yield (provable), so no truncation
occurs. -/
def RayMarcher.frameDistances (rm : RayMarcher) (scene : Scene)
    (cam : Camera) : Option (List ℝ) :=
  let image_height := f64_as_u32 ((rm.image_width : ℝ) / rm.aspect)
  match RayGenerator.new cam rm.image_width image_height with
  | none => none
  | some g =>
    match runGen (rm.image_width * image_height + 1) g with
    | none => none
    | some dirs =>
      seqOption (dirs.map fun dir => rm.send_ray_dist cam.center dir scene)

/-- src/main.rs RayMarcher::march: compute the per-ray depths, take their
maximum with max_by (expect panics on an empty frame, modelled by none),
then shade each pixel: black when the depth is negative, otherwise the
grayscale value (1 - d / max_dist) * 255 cast to u8 on all channels. -/
def RayMarcher.march (rm : RayMarcher) (scene : Scene) (cam : Camera) :
    Option Image :=
  let image_height := f64_as_u32 ((rm.image_width : ℝ) / rm.aspect)
  match rm.frameDistances scene cam with
  | none => none
  | some distances =>
    match maxByLast distances with
    | none => none
    | some max_dist =>
      let pixels := distances.map fun d =>
        if d < 0 then ((0 : ℕ), (0 : ℕ), (0 : ℕ))
        else
          let g := (1 - d / max_dist) * 255
          (f64_as_u8 g, f64_as_u8 g, f64_as_u8 g)
      some { pixels := pixels, image_width := rm.image_width,
             image_height := image_height }

/-- One pixel of the PPM body: the three channel values in decimal,
separated by single spaces, with a trailing space. -/
def ppmPixel (c : Color) : String :=
  toString c.1 ++ " " ++ toString c.2.1 ++ " " ++ toString c.2.2 ++ " "

/-- src/main.rs save_as_ppm, modelled as the string it writes: the header
P3, the dimensions line, then 255 with no newline of its own; a newline is
written before every pixel whose index is congruent to 0 modulo
image_height, so the newline after 255 comes from the first pixel and the
body lines hold image_height pixels each.  none models the panic of the
remainder operation when image_height = 0 and a pixel exists. -/
def save_as_ppm (img : Image) : Option String :=
  if img.image_height = 0 ∧ img.pixels ≠ [] then none
  else
    some
      ("P3\n" ++ toString img.image_width ++ " " ++ toString img.image_height
        ++ "\n" ++ "255"
        ++ String.join (img.pixels.enum.map fun ip =>
            (if ip.1 % img.image_height = 0 then "\n" else "") ++ ppmPixel ip.2))

/-- The direction the generator computes for pixel column x and row y:
normalize(lower_left_corner + horizontal * (x / (W - 1)) +
vertical * (y / (H - 1)) - origin), the subtractions W - 1 and H - 1 taken
in unsigned arithmetic. -/
def dirAt (g : RayGenerator) (x y : ℕ) : V3d :=
  vec_util.normalize
    (g.lower_left_corner + g.horizontal * ((x : ℝ) / ((g.image_width - 1 : ℕ) : ℝ))
      + g.vertical * ((y : ℝ) / ((g.image_height - 1 : ℕ) : ℝ)) - g.origin)

/-- The remainder of row y of the scan, from column x0 to the last
column. -/
def rowFrom (g : RayGenerator) (y x0 : ℕ) : List V3d :=
  (List.range' x0 (g.image_width - x0)).map fun x => dirAt g x y

/-- The full rows of the scan strictly below row y, emitted from row y - 1
down to row 0, each row left to right. -/
def rowsBelow (g : RayGenerator) (y : ℕ) : List V3d :=
  ((List.range y).reverse).flatMap fun yy =>
    (List.range g.image_width).map fun x => dirAt g x yy

/-- Every direction a generator state will still emit: the rest of the
current row, then all rows below it. -/
def restFrom (g : RayGenerator) : List V3d :=
  rowFrom g g.y g.x ++ rowsBelow g g.y

/-- Modelled from the claim text: the sequence of directions the spec
prescribes, y running from H - 1 down to 0 and x running 0 to W - 1 within
each y, each direction normalize(lower_left_corner + horizontal * (x /
(W - 1)) + vertical * (y / (H - 1)) - center). -/
def specDirections (cam : Camera) (W H : ℕ) : List V3d :=
  let horizontal := V3d.mk cam.viewport_width 0 0
  let vertical := V3d.mk 0 cam.viewport_height 0
  let lower_left_corner :=
    cam.center - V3d.mk 0 0 cam.focal_length - horizontal / (2 : ℝ)
      - vertical / (2 : ℝ)
  ((List.range H).reverse).flatMap fun (y : ℕ) =>
    (List.range W).map fun (x : ℕ) =>
      vec_util.normalize
        (lower_left_corner + horizontal * ((x : ℝ) / ((W - 1 : ℕ) : ℝ))
          + vertical * ((y : ℝ) / ((H - 1 : ℕ) : ℝ)) - cam.center)

/-- Modelled from the claim text: the nearest of the four attractors to z,
an exact tie won by the earliest attractor in the order a1, a2, a3, a4. -/
def specNearest (z : V3d) : V3d :=
  (minByFirst (fun a => vec_util.length (z - a))
    [Sierpinski.a1, Sierpinski.a2, Sierpinski.a3, Sierpinski.a4]).getD
    Sierpinski.a1

/-- Modelled from the claim text: one iteration of the Sierpinski map,
point * SCALE - nearest * (SCALE - 1). -/
def specStep (z : V3d) : V3d :=
  z * Sierpinski.SCALE - specNearest z * (Sierpinski.SCALE - 1)

/-- Test fixture: a SceneObject (an implementation of the Rust trait)
whose SDF is constantly 1, so every ray misses it. -/
def constObj : SceneObject := ⟨fun _ => 1, (5, 5, 5)⟩

/-- Test fixture: a scene holding only constObj. -/
def sceneK : Scene := ⟨[constObj], (0, 0, 0)⟩

/-- Test fixture: a two-sphere scene. -/
def sceneTwo : Scene :=
  ⟨[Sphere.toSceneObject ⟨⟨0, 0, 0⟩, (1, 2, 3)⟩,
    Sphere.toSceneObject ⟨⟨5, 0, 0⟩, (4, 5, 6)⟩], (0, 0, 0)⟩

/-- Test fixture: a camera at the origin with a square 2 by 2 viewport. -/
def camW : Camera := ⟨⟨0, 0, 0⟩, 2, 2, 1⟩

/-- Test fixture: a marcher configuration with epsilon 1, unit aspect
ratio and a 2-pixel-wide image (so the frame is 2 by 2). -/
def rmW : RayMarcher := ⟨1, 1 / 10, 100, 1, 2⟩

/-- Test fixture: the origin as a ray start point. -/
def oW : V3d := ⟨0, 0, 0⟩

/-- Test fixture: a concrete 2 by 2 generator state. -/
def gW : RayGenerator :=
  ⟨⟨0, 0, 0⟩, ⟨2, 0, 0⟩, ⟨0, 2, 0⟩, ⟨-1, -1, -1⟩, 2, 2, 0, 1⟩

/-- Test fixture: the forward unit direction. -/
def dW : V3d := ⟨0, 0, 1⟩

/-- Test fixture: the generator state RayGenerator::new builds for camW
on a 2 by 2 image, with the derived fields in unevaluated form. -/
def gK : RayGenerator :=
  ⟨camW.center, ⟨camW.viewport_width, 0, 0⟩, ⟨0, camW.viewport_height, 0⟩,
    camW.center - V3d.mk 0 0 camW.focal_length
      - V3d.mk camW.viewport_width 0 0 / (2 : ℝ)
      - V3d.mk 0 camW.viewport_height 0 / (2 : ℝ), 2, 2, 0, 1⟩

/-- Test fixture: a 3-wide, 2-high image with six distinct pixels. -/
def imgW : Image :=
  ⟨[(10, 11, 12), (13, 14, 15), (20, 21, 22), (23, 24, 25), (30, 31, 32),
    (33, 34, 35)], 3, 2⟩

end

/-- Characterization of the left fold underlying Rust min_by: the result
is the start value when nothing is strictly smaller, and otherwise the
first element of the list attaining the minimum. -/
lemma foldlMin_spec {α : Type} (f : α → ℝ) :
    ∀ (xs : List α) (a : α),
      (xs.foldl (fun acc y => if f y < f acc then y else acc) a = a ∧
        ∀ y ∈ xs, f a ≤ f y) ∨
      (∃ i, ∃ hi : i < xs.length,
        xs.foldl (fun acc y => if f y < f acc then y else acc) a
            = xs.get ⟨i, hi⟩ ∧
        f (xs.get ⟨i, hi⟩) < f a ∧
        (∀ y ∈ xs, f (xs.get ⟨i, hi⟩) ≤ f y) ∧
        ∀ j, ∀ hj : j < xs.length, j < i →
          f (xs.get ⟨i, hi⟩) < f (xs.get ⟨j, hj⟩)) := by
  intro xs
  induction xs with
  | nil => intro a; left; exact ⟨rfl, by simp⟩
  | cons y ys ih =>
    intro a
    by_cases hy : f y < f a
    · have hstep : (y :: ys).foldl (fun acc z => if f z < f acc then z else acc) a
          = ys.foldl (fun acc z => if f z < f acc then z else acc) y := by
        simp [List.foldl_cons, hy]
      rcases ih y with ⟨heq, hbound⟩ | ⟨i, hi, heq, hlt, hbound, hfirst⟩
      · right
        refine ⟨0, by simp, ?_, ?_, ?_, ?_⟩
        · rw [hstep, heq]; rfl
        · simpa using hy
        · intro z hz
          rcases List.mem_cons.mp hz with rfl | hz'
          · simp
          · simpa using hbound z hz'
        · intro j hj hj0; omega
      · right
        refine ⟨i + 1, by simpa using Nat.succ_lt_succ hi, ?_, ?_, ?_, ?_⟩
        · rw [hstep, heq]; rfl
        · calc f (ys.get ⟨i, hi⟩) < f y := hlt
            _ < f a := hy
        · intro z hz
          rcases List.mem_cons.mp hz with rfl | hz'
          · exact le_of_lt hlt
          · exact hbound z hz'
        · intro j hj hj0
          cases j with
          | zero => exact hlt
          | succ j1 =>
            exact hfirst j1 (by simpa using Nat.lt_of_succ_lt_succ hj)
              (Nat.lt_of_succ_lt_succ hj0)
    · push_neg at hy
      have hstep : (y :: ys).foldl (fun acc z => if f z < f acc then z else acc) a
          = ys.foldl (fun acc z => if f z < f acc then z else acc) a := by
        simp [List.foldl_cons, not_lt.mpr hy]
      rcases ih a with ⟨heq, hbound⟩ | ⟨i, hi, heq, hlt, hbound, hfirst⟩
      · left
        refine ⟨by rw [hstep, heq], ?_⟩
        intro z hz
        rcases List.mem_cons.mp hz with rfl | hz'
        · exact hy
        · exact hbound z hz'
      · right
        refine ⟨i + 1, by simpa using Nat.succ_lt_succ hi, ?_, ?_, ?_, ?_⟩
        · rw [hstep, heq]; rfl
        · exact hlt
        · intro z hz
          rcases List.mem_cons.mp hz with rfl | hz'
          · exact le_of_lt (lt_of_lt_of_le hlt hy)
          · exact hbound z hz'
        · intro j hj hj0
          cases j with
          | zero => exact lt_of_lt_of_le hlt hy
          | succ j1 =>
            exact hfirst j1 (by simpa using Nat.lt_of_succ_lt_succ hj)
              (Nat.lt_of_succ_lt_succ hj0)

/-- minByFirst on a nonempty list returns the first element attaining the
minimum of f. -/
lemma minByFirst_spec {α : Type} (f : α → ℝ) (l : List α) (hne : l ≠ []) :
    ∃ r i, ∃ hi : i < l.length, minByFirst f l = some r ∧
      l.get ⟨i, hi⟩ = r ∧ (∀ y ∈ l, f r ≤ f y) ∧
      ∀ j, ∀ hj : j < l.length, j < i → f r < f (l.get ⟨j, hj⟩) := by
  cases l with
  | nil => exact absurd rfl hne
  | cons x xs =>
    rcases foldlMin_spec f xs x with ⟨heq, hbound⟩ | ⟨i, hi, heq, hlt, hbound, hfirst⟩
    · refine ⟨x, 0, by simp, ?_, rfl, ?_, ?_⟩
      · simp [minByFirst, heq]
      · intro z hz
        rcases List.mem_cons.mp hz with rfl | hz'
        · exact le_refl _
        · exact hbound z hz'
      · intro j hj hj0; omega
    · refine ⟨xs.get ⟨i, hi⟩, i + 1, by simpa using Nat.succ_lt_succ hi, ?_, rfl, ?_, ?_⟩
      · simp [minByFirst, heq]
      · intro z hz
        rcases List.mem_cons.mp hz with rfl | hz'
        · exact le_of_lt hlt
        · exact hbound z hz'
      · intro j hj hj0
        cases j with
        | zero => exact hlt
        | succ j1 =>
          exact hfirst j1 (by simpa using Nat.lt_of_succ_lt_succ hj)
            (Nat.lt_of_succ_lt_succ hj0)

/-- The min_by fold commutes with mapping the list first. -/
lemma foldl_map_min {α β : Type} (f : β → ℝ) (gm : α → β) :
    ∀ (xs : List α) (x : α),
      (xs.map gm).foldl (fun acc y => if f y < f acc then y else acc) (gm x)
        = gm (xs.foldl (fun acc y => if f (gm y) < f (gm acc) then y else acc) x) := by
  intro xs
  induction xs with
  | nil => intro x; rfl
  | cons y ys ih =>
    intro x
    by_cases h : f (gm y) < f (gm x)
    · simp only [List.map_cons, List.foldl_cons, if_pos h]
      exact ih y
    · simp only [List.map_cons, List.foldl_cons, if_neg h]
      exact ih x

/-- minByFirst commutes with mapping the list first. -/
lemma minByFirst_map {α β : Type} (f : β → ℝ) (gm : α → β) (l : List α) :
    minByFirst f (l.map gm)
      = (minByFirst (fun a => f (gm a)) l).map gm := by
  cases l with
  | nil => rfl
  | cons x xs => simp [minByFirst, foldl_map_min f gm xs x]

/-- Scene.sdf through minByFirst over the objects themselves. -/
lemma Scene.sdf_eq (s : Scene) (p : V3d) :
    s.sdf p = (minByFirst (fun o => o.get_sdf p) s.objects).map
      (fun o => o.get_sdf p) := by
  unfold Scene.sdf
  rw [minByFirst_map id (fun o => o.get_sdf p) s.objects]
  rfl

/-- Scene.sdf_with_color through minByFirst over the objects themselves. -/
lemma Scene.sdf_with_color_eq (s : Scene) (p : V3d) :
    s.sdf_with_color p = (minByFirst (fun o => o.get_sdf p) s.objects).map
      (fun o => (o.get_sdf p, o.get_color)) := by
  unfold Scene.sdf_with_color
  rw [minByFirst_map Prod.fst (fun o => (o.get_sdf p, o.get_color)) s.objects]

/-- On a nonempty scene, sdf_with_color succeeds and its distance is the
total sdfD value. -/
lemma Scene.sdf_with_color_some (s : Scene) (p : V3d)
    (hne : s.objects ≠ []) :
    ∃ c, s.sdf_with_color p = some (s.sdfD p, c) := by
  rcases minByFirst_spec (fun o => o.get_sdf p) s.objects hne with
    ⟨r, i, hi, hmin, hget, hbound, hfirst⟩
  refine ⟨r.get_color, ?_⟩
  have hsdf : s.sdf p = some (r.get_sdf p) := by
    rw [Scene.sdf_eq, hmin]; rfl
  have hD : s.sdfD p = r.get_sdf p := by
    unfold Scene.sdfD
    rw [hsdf]; rfl
  rw [Scene.sdf_with_color_eq, hmin, hD]
  rfl

/-- C3: for every nonempty scene and query point, Scene::sdf returns the
minimum of the member objects' signed distances at the point, and
Scene::sdf_with_color returns the (distance, color) pair of the object
attaining that minimum, an exact tie won by the first minimal object in
iteration order. -/
theorem C3_scene_min_first (s : Scene) (p : V3d) (hne : s.objects ≠ []) :
    ∃ m i, ∃ hi : i < s.objects.length,
      s.sdf p = some m ∧
      (∀ o ∈ s.objects, m ≤ o.get_sdf p) ∧
      (s.objects.get ⟨i, hi⟩).get_sdf p = m ∧
      s.sdf_with_color p = some (m, (s.objects.get ⟨i, hi⟩).get_color) ∧
      ∀ j, ∀ hj : j < s.objects.length, j < i →
        m < (s.objects.get ⟨j, hj⟩).get_sdf p := by
  rcases minByFirst_spec (fun o => o.get_sdf p) s.objects hne with
    ⟨r, i, hi, hmin, hget, hbound, hfirst⟩
  refine ⟨r.get_sdf p, i, hi, ?_, ?_, ?_, ?_, ?_⟩
  · rw [Scene.sdf_eq, hmin]; rfl
  · exact hbound
  · rw [hget]
  · rw [Scene.sdf_with_color_eq, hmin, hget]; rfl
  · intro j hj hj0
    exact hfirst j hj hj0

/-- Witness for C3 at a concrete two-sphere scene and the origin. -/
theorem C3_scene_min_first_witness :
    sceneTwo.objects ≠ [] ∧
    (∃ m i, ∃ hi : i < sceneTwo.objects.length,
      sceneTwo.sdf ⟨0, 0, 0⟩ = some m ∧
      (∀ o ∈ sceneTwo.objects, m ≤ o.get_sdf ⟨0, 0, 0⟩) ∧
      (sceneTwo.objects.get ⟨i, hi⟩).get_sdf ⟨0, 0, 0⟩ = m ∧
      sceneTwo.sdf_with_color ⟨0, 0, 0⟩
          = some (m, (sceneTwo.objects.get ⟨i, hi⟩).get_color) ∧
      ∀ j, ∀ hj : j < sceneTwo.objects.length, j < i →
        m < (sceneTwo.objects.get ⟨j, hj⟩).get_sdf ⟨0, 0, 0⟩) :=
  ⟨by simp [sceneTwo],
    C3_scene_min_first sceneTwo ⟨0, 0, 0⟩ (by simp [sceneTwo])⟩

/-- C6: ExclusionObject::get_sdf is max(distance_A, -distance_B) and
ExclusionObject::get_color is the fixed neutral gray (100, 100, 100),
identical for every instance regardless of the sub-objects. -/
theorem C6_exclusion_sdf_color (e e2 : ExclusionObject) (p : V3d) :
    e.get_sdf p = max (e.a.get_sdf p) (-(e.b.get_sdf p)) ∧
    e.get_color = (100, 100, 100) ∧
    e.get_color = e2.get_color :=
  ⟨rfl, rfl, rfl⟩

/-- Facts about the left fold underlying Rust max_by: the result is the
start value or a list element, and it bounds the start value and every
list element from above. -/
lemma foldlMax_facts :
    ∀ (xs : List ℝ) (a : ℝ),
      (xs.foldl (fun acc y => if y < acc then acc else y) a = a ∨
        xs.foldl (fun acc y => if y < acc then acc else y) a ∈ xs) ∧
      a ≤ xs.foldl (fun acc y => if y < acc then acc else y) a ∧
      ∀ y ∈ xs, y ≤ xs.foldl (fun acc y => if y < acc then acc else y) a := by
  intro xs
  induction xs with
  | nil => intro a; exact ⟨Or.inl rfl, le_refl a, by simp⟩
  | cons y ys ih =>
    intro a
    have hstep : (y :: ys).foldl (fun acc z => if z < acc then acc else z) a
        = ys.foldl (fun acc z => if z < acc then acc else z)
            (if y < a then a else y) := by
      simp [List.foldl_cons]
    rcases ih (if y < a then a else y) with ⟨hmem, hle, hbound⟩
    have hay : a ≤ (if y < a then a else y) := by
      by_cases h : y < a
      · simp [h]
      · simp [h]; exact le_of_not_lt h
    have hyy : y ≤ (if y < a then a else y) := by
      by_cases h : y < a
      · simp [h]; exact le_of_lt h
      · simp [h]
    refine ⟨?_, ?_, ?_⟩
    · rcases hmem with heq | hin
      · by_cases h : y < a
        · left; rw [hstep, heq, if_pos h]
        · right; rw [hstep, heq, if_neg h]; exact List.mem_cons_self y ys
      · right
        rw [hstep]
        exact List.mem_cons_of_mem y hin
    · rw [hstep]; exact le_trans hay hle
    · intro z hz
      rcases List.mem_cons.mp hz with rfl | hz'
      · rw [hstep]; exact le_trans hyy hle
      · rw [hstep]; exact hbound z hz'

/-- maxByLast on a nonempty list returns an element that bounds the whole
list from above. -/
lemma maxByLast_spec (l : List ℝ) (hne : l ≠ []) :
    ∃ M, maxByLast l = some M ∧ M ∈ l ∧ ∀ y ∈ l, y ≤ M := by
  cases l with
  | nil => exact absurd rfl hne
  | cons x xs =>
    rcases foldlMax_facts xs x with ⟨hmem, hle, hbound⟩
    refine ⟨xs.foldl (fun acc y => if y < acc then acc else y) x, rfl, ?_, ?_⟩
    · rcases hmem with heq | hin
      · rw [heq]; exact List.mem_cons_self x xs
      · exact List.mem_cons_of_mem x hin
    · intro z hz
      rcases List.mem_cons.mp hz with rfl | hz'
      · exact hle
      · exact hbound z hz'

/-- When every remaining probe point has SDF at least epsilon, the
instrumented loop exhausts its fuel, returns the sentinel -1 and counts
one SDF evaluation per remaining step. -/
lemma sendLoopC_miss (rm : RayMarcher) (scene : Scene) (origin direction : V3d)
    (hne : scene.objects ≠ []) :
    ∀ fuel d c,
      (∀ k, k < fuel → rm.ray_dist_epsilon
          ≤ scene.sdfD (origin + direction * depthFrom scene origin direction d k)) →
      sendLoopC rm scene origin direction fuel d c = some (-1, c + fuel) := by
  intro fuel
  induction fuel with
  | zero => intro d c _; simp [sendLoopC]
  | succ f ih =>
    intro d c hall
    obtain ⟨col, hwc⟩ := Scene.sdf_with_color_some scene (origin + direction * d) hne
    have h0 : rm.ray_dist_epsilon ≤ scene.sdfD (origin + direction * d) := by
      have := hall 0 (Nat.succ_pos f)
      simpa [depthFrom] using this
    have hrec := ih (d + scene.sdfD (origin + direction * d)) (c + 1)
      (fun k hk => by
        have := hall (k + 1) (Nat.succ_lt_succ hk)
        simpa [depthFrom] using this)
    calc sendLoopC rm scene origin direction (f + 1) d c
        = sendLoopC rm scene origin direction f
            (d + scene.sdfD (origin + direction * d)) (c + 1) := by
          simp only [sendLoopC, hwc]
          rw [if_neg (not_lt.mpr h0)]
      _ = some (-1, c + 1 + f) := hrec
      _ = some (-1, c + (f + 1)) := by
          congr 2
          omega

/-- When the k-th probe point is the first whose SDF drops below epsilon
and k is within the fuel, the instrumented loop returns the accumulated
depth after exactly k + 1 SDF evaluations. -/
lemma sendLoopC_hit (rm : RayMarcher) (scene : Scene) (origin direction : V3d)
    (hne : scene.objects ≠ []) :
    ∀ k fuel d c, k < fuel →
      scene.sdfD (origin + direction * depthFrom scene origin direction d k)
        < rm.ray_dist_epsilon →
      (∀ j, j < k → rm.ray_dist_epsilon
          ≤ scene.sdfD (origin + direction * depthFrom scene origin direction d j)) →
      sendLoopC rm scene origin direction fuel d c
        = some (depthFrom scene origin direction d k, c + k + 1) := by
  intro k
  induction k with
  | zero =>
    intro fuel d c hk hhit _
    cases fuel with
    | zero => omega
    | succ f =>
      obtain ⟨col, hwc⟩ := Scene.sdf_with_color_some scene (origin + direction * d) hne
      have hhit0 : scene.sdfD (origin + direction * d) < rm.ray_dist_epsilon := by
        simpa [depthFrom] using hhit
      simp only [sendLoopC, hwc]
      rw [if_pos hhit0]
      simp [depthFrom]
  | succ k1 ih =>
    intro fuel d c hk hhit hall
    cases fuel with
    | zero => omega
    | succ f =>
      obtain ⟨col, hwc⟩ := Scene.sdf_with_color_some scene (origin + direction * d) hne
      have h0 : rm.ray_dist_epsilon ≤ scene.sdfD (origin + direction * d) := by
        have := hall 0 (Nat.succ_pos k1)
        simpa [depthFrom] using this
      have hrec := ih f (d + scene.sdfD (origin + direction * d)) (c + 1)
        (Nat.lt_of_succ_lt_succ hk)
        (by simpa [depthFrom] using hhit)
        (fun j hj => by
          have := hall (j + 1) (Nat.succ_lt_succ hj)
          simpa [depthFrom] using this)
      calc sendLoopC rm scene origin direction (f + 1) d c
          = sendLoopC rm scene origin direction f
              (d + scene.sdfD (origin + direction * d)) (c + 1) := by
            simp only [sendLoopC, hwc]
            rw [if_neg (not_lt.mpr h0)]
        _ = some (depthFrom scene origin direction
              (d + scene.sdfD (origin + direction * d)) k1, c + 1 + k1 + 1) := hrec
        _ = some (depthFrom scene origin direction d (k1 + 1), c + (k1 + 1) + 1) := by
            rw [show depthFrom scene origin direction d (k1 + 1)
                = depthFrom scene origin direction
                    (d + scene.sdfD (origin + direction * d)) k1 from rfl]
            congr 2
            omega

/-- The instrumented loop projected to the depth is the plain loop. -/
lemma sendLoopC_fst (rm : RayMarcher) (scene : Scene) (origin direction : V3d) :
    ∀ fuel d c,
      Option.map Prod.fst (sendLoopC rm scene origin direction fuel d c)
        = sendLoop rm scene origin direction fuel d := by
  intro fuel
  induction fuel with
  | zero => intro d c; simp [sendLoopC, sendLoop]
  | succ f ih =>
    intro d c
    cases hwc : scene.sdf_with_color (origin + direction * d) with
    | none => simp [sendLoopC, sendLoop, hwc]
    | some dc =>
      by_cases h : dc.1 < rm.ray_dist_epsilon
      · simp [sendLoopC, sendLoop, hwc, h]
      · simp only [sendLoopC, sendLoop, hwc, if_neg h]
        exact ih (d + dc.1) (c + 1)

/-- C1: send_ray_dist starts at depth 0 and repeats up to max_steps
times, evaluating the scene SDF at origin + direction * depth; it returns
the accumulated depth as soon as the distance falls below
ray_dist_epsilon, otherwise adds the distance to the depth, and when all
max_steps iterations are exhausted it returns the sentinel -1 after
exactly max_steps SDF evaluations. -/
theorem C1_send_ray_dist_spec (rm : RayMarcher) (scene : Scene)
    (origin direction : V3d) (hne : scene.objects ≠ []) :
    depthFrom scene origin direction 0 0 = 0 ∧
    ((∀ k, k < rm.max_steps → rm.ray_dist_epsilon
        ≤ scene.sdfD (origin + direction * depthFrom scene origin direction 0 k)) →
      rm.send_ray_dist_count origin direction scene = some (-1, rm.max_steps) ∧
      rm.send_ray_dist origin direction scene = some (-1)) ∧
    (∀ k, k < rm.max_steps →
      scene.sdfD (origin + direction * depthFrom scene origin direction 0 k)
        < rm.ray_dist_epsilon →
      (∀ j, j < k → rm.ray_dist_epsilon
          ≤ scene.sdfD (origin + direction * depthFrom scene origin direction 0 j)) →
      rm.send_ray_dist_count origin direction scene
          = some (depthFrom scene origin direction 0 k, k + 1) ∧
      rm.send_ray_dist origin direction scene
          = some (depthFrom scene origin direction 0 k)) := by
  refine ⟨rfl, ?_, ?_⟩
  · intro hall
    have hc : rm.send_ray_dist_count origin direction scene
        = some (-1, rm.max_steps) := by
      unfold RayMarcher.send_ray_dist_count
      rw [sendLoopC_miss rm scene origin direction hne rm.max_steps 0 0 hall]
      simp
    refine ⟨hc, ?_⟩
    have := sendLoopC_fst rm scene origin direction rm.max_steps 0 0
    unfold RayMarcher.send_ray_dist
    rw [← this]
    unfold RayMarcher.send_ray_dist_count at hc
    rw [hc]
    rfl
  · intro k hk hhit hall
    have hc : rm.send_ray_dist_count origin direction scene
        = some (depthFrom scene origin direction 0 k, k + 1) := by
      unfold RayMarcher.send_ray_dist_count
      rw [sendLoopC_hit rm scene origin direction hne k rm.max_steps 0 0 hk hhit hall]
      simp
    refine ⟨hc, ?_⟩
    have := sendLoopC_fst rm scene origin direction rm.max_steps 0 0
    unfold RayMarcher.send_ray_dist
    rw [← this]
    unfold RayMarcher.send_ray_dist_count at hc
    rw [hc]
    rfl

/-- Witness for C1 at the constant-SDF test scene. -/
theorem C1_send_ray_dist_spec_witness :
    sceneK.objects ≠ [] ∧
    (depthFrom sceneK oW dW 0 0 = 0 ∧
    ((∀ k, k < rmW.max_steps → rmW.ray_dist_epsilon
        ≤ sceneK.sdfD (oW + dW * depthFrom sceneK oW dW 0 k)) →
      rmW.send_ray_dist_count oW dW sceneK = some (-1, rmW.max_steps) ∧
      rmW.send_ray_dist oW dW sceneK = some (-1)) ∧
    (∀ k, k < rmW.max_steps →
      sceneK.sdfD (oW + dW * depthFrom sceneK oW dW 0 k)
        < rmW.ray_dist_epsilon →
      (∀ j, j < k → rmW.ray_dist_epsilon
          ≤ sceneK.sdfD (oW + dW * depthFrom sceneK oW dW 0 j)) →
      rmW.send_ray_dist_count oW dW sceneK
          = some (depthFrom sceneK oW dW 0 k, k + 1) ∧
      rmW.send_ray_dist oW dW sceneK
          = some (depthFrom sceneK oW dW 0 k))) :=
  ⟨by simp [sceneK],
    C1_send_ray_dist_spec rmW sceneK oW dW (by simp [sceneK])⟩

/-- If the loop starts at a nonnegative depth, any depth it returns is the
sentinel -1 or nonnegative (each added SDF value is at least epsilon). -/
lemma sendLoop_nonneg (rm : RayMarcher) (scene : Scene)
    (origin direction : V3d) (heps : 0 < rm.ray_dist_epsilon) :
    ∀ fuel d r, 0 ≤ d →
      sendLoop rm scene origin direction fuel d = some r →
      r = -1 ∨ 0 ≤ r := by
  intro fuel
  induction fuel with
  | zero =>
    intro d r _ hr
    left
    have : some (-1 : ℝ) = some r := hr
    exact (Option.some_inj.mp this).symm
  | succ f ih =>
    intro d r hd hr
    rcases hwc : scene.sdf_with_color (origin + direction * d) with _ | dc
    · simp only [sendLoop, hwc] at hr
      exact Option.noConfusion hr
    · simp only [sendLoop, hwc] at hr
      by_cases h : dc.1 < rm.ray_dist_epsilon
      · rw [if_pos h] at hr
        right
        rw [← Option.some_inj.mp hr]
        exact hd
      · rw [if_neg h] at hr
        exact ih (d + dc.1) r
          (by
            have : rm.ray_dist_epsilon ≤ dc.1 := not_lt.mp h
            linarith)
          hr

/-- C8: with a positive ray_dist_epsilon, send_ray_dist returns either the
sentinel -1 or a nonnegative depth, so the test depth < 0 used by march
classifies exactly the miss rays. -/
theorem C8_sentinel_classification (rm : RayMarcher) (scene : Scene)
    (origin direction : V3d) (heps : 0 < rm.ray_dist_epsilon) (r : ℝ)
    (hr : rm.send_ray_dist origin direction scene = some r) :
    (r = -1 ∨ 0 ≤ r) ∧ (r < 0 ↔ r = -1) := by
  have hdisj : r = -1 ∨ 0 ≤ r :=
    sendLoop_nonneg rm scene origin direction heps rm.max_steps 0 r
      (le_refl 0) hr
  refine ⟨hdisj, ?_, ?_⟩
  · intro hneg
    rcases hdisj with h | h
    · exact h
    · linarith
  · intro h1
    rw [h1]
    norm_num

/-- The constant-SDF scene evaluates sdf_with_color to (1, (5,5,5))
everywhere. -/
lemma sceneK_sdf_with_color (p : V3d) :
    sceneK.sdf_with_color p = some (1, (5, 5, 5)) := rfl

/-- With epsilon 1 the constant scene never hits: the loop always spends
its fuel and returns -1. -/
lemma sendLoopK (origin direction : V3d) :
    ∀ fuel d, sendLoop rmW sceneK origin direction fuel d = some (-1) := by
  intro fuel
  induction fuel with
  | zero => intro d; rfl
  | succ f ih =>
    intro d
    have : ¬ ((1 : ℝ) < rmW.ray_dist_epsilon) := by
      simp [rmW]
    simp only [sendLoop, sceneK_sdf_with_color]
    rw [if_neg this]
    exact ih (d + 1)

/-- Every ray sent into the constant scene with the test configuration
misses. -/
lemma sendK (origin direction : V3d) :
    rmW.send_ray_dist origin direction sceneK = some (-1) :=
  sendLoopK origin direction rmW.max_steps 0

/-- The Sierpinski loop body equals the specification step: fold toward
the first-minimal attractor. -/
lemma step_eq_specStep (z : V3d) : Sierpinski.step z = specStep z := by
  simp only [Sierpinski.step, specStep, specNearest, minByFirst, List.foldl,
    Option.getD]
  split_ifs <;> rfl

/-- The Sierpinski while-loop is iteration of the specification step. -/
lemma loop_eq_iterate : ∀ (n : ℕ) (z : V3d),
    Sierpinski.loop n z = Nat.iterate specStep n z := by
  intro n
  induction n with
  | zero => intro z; rfl
  | succ m ih =>
    intro z
    rw [Sierpinski.loop, ih (Sierpinski.step z), step_eq_specStep,
      Function.iterate_succ_apply]

/-- powf(SCALE, -10) is the inverse of the tenth power of SCALE. -/
lemma rpow_scale_neg_ten :
    Real.rpow Sierpinski.SCALE (-(10 : ℝ)) = (Sierpinski.SCALE ^ (10 : ℕ))⁻¹ := by
  have h : Real.rpow Sierpinski.SCALE (-(10 : ℝ))
      = Sierpinski.SCALE ^ (-((10 : ℕ) : ℝ)) := by
    norm_num
  rw [h, Real.rpow_neg (by norm_num [Sierpinski.SCALE]), Real.rpow_natCast]

/-- C5: Sierpinski::get_sdf iterates exactly ten times the map that moves
the point toward the nearest of the four attractors (exact ties won by
the earliest in the order a1, a2, a3, a4, a later attractor replacing the
current one only when strictly closer), each step computing point * SCALE
- nearest * (SCALE - 1) with SCALE = 1.85, and returns the length of the
final point times SCALE to the power -10. -/
theorem C5_sierpinski_ifs (s : Sierpinski) (z : V3d) (n : ℕ) :
    Sierpinski.step z = specStep z ∧
    Sierpinski.loop n z = Nat.iterate specStep n z ∧
    s.get_sdf z
      = vec_util.length (Nat.iterate specStep 10 z)
          * (Sierpinski.SCALE ^ (10 : ℕ))⁻¹ ∧
    (∀ a ∈ [Sierpinski.a1, Sierpinski.a2, Sierpinski.a3, Sierpinski.a4],
      vec_util.length (z - specNearest z) ≤ vec_util.length (z - a)) ∧
    (∃ i, ∃ hi : i <
        [Sierpinski.a1, Sierpinski.a2, Sierpinski.a3, Sierpinski.a4].length,
      [Sierpinski.a1, Sierpinski.a2, Sierpinski.a3,
          Sierpinski.a4].get ⟨i, hi⟩ = specNearest z ∧
      ∀ j, ∀ hj : j <
          [Sierpinski.a1, Sierpinski.a2, Sierpinski.a3, Sierpinski.a4].length,
        j < i → vec_util.length (z - specNearest z)
          < vec_util.length (z - [Sierpinski.a1, Sierpinski.a2, Sierpinski.a3,
              Sierpinski.a4].get ⟨j, hj⟩)) := by
  obtain ⟨r, i, hi, hmin, hget, hbound, hfirst⟩ :=
    minByFirst_spec (fun a => vec_util.length (z - a))
      [Sierpinski.a1, Sierpinski.a2, Sierpinski.a3, Sierpinski.a4] (by simp)
  have hnear : specNearest z = r := by
    unfold specNearest
    rw [hmin]
    rfl
  refine ⟨step_eq_specStep z, loop_eq_iterate n z, ?_, ?_, ?_⟩
  · unfold Sierpinski.get_sdf
    rw [loop_eq_iterate, rpow_scale_neg_ten]
  · intro a ha
    rw [hnear]
    exact hbound a ha
  · refine ⟨i, hi, ?_, ?_⟩
    · rw [hnear]; exact hget
    · intro j hj hj0
      rw [hnear]
      exact hfirst j hj hj0

/-- C9: Sierpinski::get_sdf never returns a negative signed distance: the
result is a vector length scaled by a positive constant. -/
theorem C9_sierpinski_nonneg (s : Sierpinski) (z : V3d) :
    0 ≤ s.get_sdf z := by
  unfold Sierpinski.get_sdf
  apply mul_nonneg
  · exact Real.sqrt_nonneg _
  · exact Real.rpow_nonneg (by norm_num [Sierpinski.SCALE]) _

/-- C10: RayGenerator::new computes the initial cursor as image_height - 1
in u32 arithmetic, so image_height = 0 underflows (panics); under the
precondition width and height at least 2, new succeeds and next is total,
returning a direction or end-of-sequence while preserving the dimension
fields, so no unsigned operation goes out of range on any reachable
state. -/
theorem C10_generator_u32_safety :
    (∀ (cam : Camera) (W : ℕ), RayGenerator.new cam W 0 = none) ∧
    (∀ (cam : Camera) (W H : ℕ), 2 ≤ W → 2 ≤ H →
      ∃ g, RayGenerator.new cam W H = some g ∧ g.image_width = W ∧
        g.image_height = H ∧ g.x = 0 ∧ g.y = H - 1) ∧
    (∀ g : RayGenerator, 2 ≤ g.image_width → 2 ≤ g.image_height →
      g.next = some none ∨
      ∃ d g1, g.next = some (some (d, g1)) ∧
        g1.image_width = g.image_width ∧ g1.image_height = g.image_height) := by
  refine ⟨?_, ?_, ?_⟩
  · intro cam W
    simp [RayGenerator.new]
  · intro cam W H hW hH
    have hH0 : ¬ (H = 0) := by omega
    refine
      ⟨{ origin := cam.center
         horizontal := V3d.mk cam.viewport_width 0 0
         vertical := V3d.mk 0 cam.viewport_height 0
         lower_left_corner :=
           cam.center - V3d.mk 0 0 cam.focal_length
             - V3d.mk cam.viewport_width 0 0 / (2 : ℝ)
             - V3d.mk 0 cam.viewport_height 0 / (2 : ℝ)
         image_width := W
         image_height := H
         x := 0
         y := H - 1 }, ?_, rfl, rfl, rfl, rfl⟩
    simp only [RayGenerator.new]
    rw [if_neg hH0]
  · intro g hW hH
    by_cases hex : g.y = 0 ∧ g.image_width ≤ g.x
    · left
      simp only [RayGenerator.next]
      rw [if_pos hex]
    · right
      have hpanic : ¬ (g.image_height = 0 ∨ g.image_width = 0) := by omega
      by_cases hres : g.image_width ≤ g.x + 1 ∧ 0 < g.y
      · refine ⟨dirAt g g.x g.y, { g with x := 0, y := g.y - 1 }, ?_, rfl, rfl⟩
        simp only [RayGenerator.next]
        rw [if_neg hex, if_neg hpanic, if_pos hres]
        rfl
      · refine ⟨dirAt g g.x g.y, { g with x := g.x + 1 }, ?_, rfl, rfl⟩
        simp only [RayGenerator.next]
        rw [if_neg hex, if_neg hpanic, if_neg hres]
        rfl

/-- next on an exhausted cursor reports end of sequence. -/
lemma next_exhausted (g : RayGenerator) (hex : g.y = 0 ∧ g.image_width ≤ g.x) :
    g.next = some none := by
  simp only [RayGenerator.next]
  rw [if_pos hex]

/-- next at the end of a row above the bottom emits the current direction
and wraps the cursor to the start of the next row down. -/
lemma next_reset (g : RayGenerator)
    (hex : ¬ (g.y = 0 ∧ g.image_width ≤ g.x))
    (hpanic : ¬ (g.image_height = 0 ∨ g.image_width = 0))
    (hres : g.image_width ≤ g.x + 1 ∧ 0 < g.y) :
    g.next = some (some (dirAt g g.x g.y, { g with x := 0, y := g.y - 1 })) := by
  simp only [RayGenerator.next]
  rw [if_neg hex, if_neg hpanic, if_pos hres]
  rfl

/-- next in the middle of a row emits the current direction and advances
the column. -/
lemma next_advance (g : RayGenerator)
    (hex : ¬ (g.y = 0 ∧ g.image_width ≤ g.x))
    (hpanic : ¬ (g.image_height = 0 ∨ g.image_width = 0))
    (hres : ¬ (g.image_width ≤ g.x + 1 ∧ 0 < g.y)) :
    g.next = some (some (dirAt g g.x g.y, { g with x := g.x + 1 })) := by
  simp only [RayGenerator.next]
  rw [if_neg hex, if_neg hpanic, if_neg hres]
  rfl

/-- Summing a constant over a list. -/
lemma sum_map_const {α : Type} :
    ∀ (l : List α) (n : ℕ), (l.map fun _ => n).sum = l.length * n := by
  intro l n
  induction l with
  | nil => simp
  | cons a as ih => simp [ih, Nat.succ_mul, Nat.add_comm]

/-- Length of a row remainder. -/
lemma length_rowFrom (g : RayGenerator) (y x0 : ℕ) :
    (rowFrom g y x0).length = g.image_width - x0 := by
  simp [rowFrom]

/-- Length of the rows below y. -/
lemma length_rowsBelow (g : RayGenerator) (y : ℕ) :
    (rowsBelow g y).length = y * g.image_width := by
  rw [rowsBelow, List.length_flatMap]
  have h : (List.map
      (List.length ∘ fun yy =>
        List.map (fun x => dirAt g x yy) (List.range g.image_width))
      (List.range y).reverse)
      = (List.range y).reverse.map fun _ => g.image_width := by
    apply List.map_congr_left
    intro a _
    simp
  rw [h, sum_map_const]
  simp

/-- Length of the remaining output of a generator state. -/
lemma length_restFrom (g : RayGenerator) :
    (restFrom g).length = (g.image_width - g.x) + g.y * g.image_width := by
  simp [restFrom, length_rowFrom, length_rowsBelow]

/-- Decomposition of the remaining output at a row wrap. -/
lemma restFrom_reset (g : RayGenerator) (hx : g.x < g.image_width)
    (hxW : g.image_width ≤ g.x + 1) (hy : 0 < g.y) :
    restFrom g = dirAt g g.x g.y :: restFrom { g with x := 0, y := g.y - 1 } := by
  have hW1 : g.image_width - g.x = 1 := by omega
  have hy' : g.y = (g.y - 1) + 1 := by omega
  have e1 : rowFrom g g.y g.x = [dirAt g g.x g.y] := by
    unfold rowFrom
    rw [hW1]
    rfl
  have e2 : rowsBelow g g.y = rowFrom g (g.y - 1) 0 ++ rowsBelow g (g.y - 1) := by
    unfold rowsBelow rowFrom
    conv_lhs => rw [hy']
    rw [List.range_succ, List.reverse_append]
    simp [List.range_eq_range']
  have e3 : restFrom { g with x := 0, y := g.y - 1 }
      = rowFrom g (g.y - 1) 0 ++ rowsBelow g (g.y - 1) := rfl
  show rowFrom g g.y g.x ++ rowsBelow g g.y = _
  rw [e1, e2, e3]
  rfl

/-- Decomposition of the remaining output at a plain column advance. -/
lemma restFrom_advance (g : RayGenerator) (hx : g.x < g.image_width) :
    restFrom g = dirAt g g.x g.y :: restFrom { g with x := g.x + 1 } := by
  have h : g.image_width - g.x = (g.image_width - (g.x + 1)) + 1 := by omega
  show rowFrom g g.y g.x ++ rowsBelow g g.y = _
  have e1 : rowFrom g g.y g.x
      = dirAt g g.x g.y :: rowFrom g g.y (g.x + 1) := by
    unfold rowFrom
    rw [h, List.range'_succ]
    rfl
  rw [e1]
  rfl

/-- Draining a generator with enough fuel returns exactly the remaining
output restFrom, provided both dimensions are at least 2 and the cursor
invariant (column in range unless on the bottom row) holds. -/
lemma runGen_restFrom :
    ∀ (fuel : ℕ) (g : RayGenerator), 2 ≤ g.image_width → 2 ≤ g.image_height →
      (g.x < g.image_width ∨ g.y = 0) →
      (restFrom g).length ≤ fuel →
      runGen fuel g = some (restFrom g) := by
  intro fuel
  induction fuel with
  | zero =>
    intro g _ _ _ hlen
    have h0 : restFrom g = [] :=
      List.eq_nil_of_length_eq_zero (Nat.le_zero.mp hlen)
    rw [h0]
    rfl
  | succ f ih =>
    intro g hW hH hinv hlen
    by_cases hex : g.y = 0 ∧ g.image_width ≤ g.x
    · have hrest : restFrom g = [] := by
        have : (restFrom g).length = 0 := by
          rw [length_restFrom, hex.1]
          omega
        exact List.eq_nil_of_length_eq_zero this
      rw [hrest]
      simp only [runGen, next_exhausted g hex]
    · have hx : g.x < g.image_width := by
        rcases hinv with h | h
        · exact h
        · rcases not_and_or.mp hex with h1 | h2
          · exact absurd h h1
          · exact not_le.mp h2
      have hpanic : ¬ (g.image_height = 0 ∨ g.image_width = 0) := by omega
      by_cases hres : g.image_width ≤ g.x + 1 ∧ 0 < g.y
      · have hsplit := restFrom_reset g hx hres.1 hres.2
        have hlen1 : (restFrom { g with x := 0, y := g.y - 1 }).length ≤ f := by
          have : (restFrom g).length
              = (restFrom { g with x := 0, y := g.y - 1 }).length + 1 := by
            rw [hsplit]
            simp
          omega
        have hrec := ih { g with x := 0, y := g.y - 1 } hW hH
          (Or.inl (by simpa using by omega : (0 : ℕ) < g.image_width)) hlen1
        simp only [runGen, next_reset g hex hpanic hres]
        rw [hrec, hsplit]
        rfl
      · have hsplit := restFrom_advance g hx
        have hlen1 : (restFrom { g with x := g.x + 1 }).length ≤ f := by
          have : (restFrom g).length
              = (restFrom { g with x := g.x + 1 }).length + 1 := by
            rw [hsplit]
            simp
          omega
        have hinv1 : g.x + 1 < g.image_width ∨ g.y = 0 := by
          rcases not_and_or.mp hres with h1 | h2
          · left; exact not_le.mp h1
          · right; omega
        have hrec := ih { g with x := g.x + 1 } hW hH hinv1 hlen1
        simp only [runGen, next_advance g hex hpanic hres]
        rw [hrec, hsplit]
        rfl

/-- The remaining output of a freshly constructed generator is exactly
the specified direction list. -/
lemma restFrom_new_eq (cam : Camera) (W H : ℕ) (hH : 1 ≤ H) :
    restFrom
      { origin := cam.center
        horizontal := V3d.mk cam.viewport_width 0 0
        vertical := V3d.mk 0 cam.viewport_height 0
        lower_left_corner :=
          cam.center - V3d.mk 0 0 cam.focal_length
            - V3d.mk cam.viewport_width 0 0 / (2 : ℝ)
            - V3d.mk 0 cam.viewport_height 0 / (2 : ℝ)
        image_width := W
        image_height := H
        x := 0
        y := H - 1 }
      = specDirections cam W H := by
  have hH' : List.range H = List.range ((H - 1) + 1) := by
    congr 1
    omega
  simp only [restFrom, rowFrom, rowsBelow, specDirections, dirAt, Nat.sub_zero]
  conv_rhs => rw [hH', List.range_succ, List.reverse_append]
  simp only [List.reverse_singleton, List.singleton_append, List.flatMap_cons,
    List.range_eq_range']

/-- C4: for width and height at least 2, the generator yields exactly
W * H directions, y running from H - 1 down to 0 and x running left to
right within each row, each direction given by the normalized viewport
formula; one further pull yields nothing. -/
theorem C4_ray_generator_sequence (cam : Camera) (W H : ℕ)
    (hW : 2 ≤ W) (hH : 2 ≤ H) :
    (specDirections cam W H).length = W * H ∧
    ∃ g, RayGenerator.new cam W H = some g ∧
      runGen (W * H) g = some (specDirections cam W H) ∧
      runGen (W * H + 1) g = some (specDirections cam W H) := by
  have hnew : RayGenerator.new cam W H = some
      { origin := cam.center
        horizontal := V3d.mk cam.viewport_width 0 0
        vertical := V3d.mk 0 cam.viewport_height 0
        lower_left_corner :=
          cam.center - V3d.mk 0 0 cam.focal_length
            - V3d.mk cam.viewport_width 0 0 / (2 : ℝ)
            - V3d.mk 0 cam.viewport_height 0 / (2 : ℝ)
        image_width := W
        image_height := H
        x := 0
        y := H - 1 } := by
    simp only [RayGenerator.new]
    rw [if_neg (by omega : ¬ (H = 0))]
  have heq := restFrom_new_eq cam W H (by omega)
  have hlen : (restFrom
      { origin := cam.center
        horizontal := V3d.mk cam.viewport_width 0 0
        vertical := V3d.mk 0 cam.viewport_height 0
        lower_left_corner :=
          cam.center - V3d.mk 0 0 cam.focal_length
            - V3d.mk cam.viewport_width 0 0 / (2 : ℝ)
            - V3d.mk 0 cam.viewport_height 0 / (2 : ℝ)
        image_width := W
        image_height := H
        x := 0
        y := H - 1 }).length = W * H := by
    rw [length_restFrom]
    show W - 0 + (H - 1) * W = W * H
    have h1 : H = (H - 1) + 1 := by omega
    calc W - 0 + (H - 1) * W = (H - 1) * W + W := by omega
      _ = ((H - 1) + 1) * W := by rw [Nat.succ_mul]
      _ = H * W := by rw [← h1]
      _ = W * H := Nat.mul_comm H W
  refine ⟨by rw [← heq, hlen], _, hnew, ?_, ?_⟩
  · rw [← heq]
    exact runGen_restFrom (W * H) _ hW hH
      (Or.inl (show (0 : ℕ) < W by omega)) (le_of_eq hlen)
  · rw [← heq]
    exact runGen_restFrom (W * H + 1) _ hW hH
      (Or.inl (show (0 : ℕ) < W by omega)) (by rw [hlen]; omega)

/-- Witness for C4 at a concrete camera and a 2 by 2 image. -/
theorem C4_ray_generator_sequence_witness :
    2 ≤ 2 ∧
    ((specDirections camW 2 2).length = 2 * 2 ∧
    ∃ g, RayGenerator.new camW 2 2 = some g ∧
      runGen (2 * 2) g = some (specDirections camW 2 2) ∧
      runGen (2 * 2 + 1) g = some (specDirections camW 2 2)) :=
  ⟨le_refl 2, C4_ray_generator_sequence camW 2 2 (le_refl 2) (le_refl 2)⟩

/-- Witness for C10 at concrete inputs: height 0 panics, a 2 by 2
generator is constructed with cursor (0, 1), and next is total on the
concrete state gW. -/
theorem C10_generator_u32_safety_witness :
    RayGenerator.new camW 2 0 = none ∧
    (∃ g, RayGenerator.new camW 2 2 = some g ∧ g.image_width = 2 ∧
      g.image_height = 2 ∧ g.x = 0 ∧ g.y = 1) ∧
    (gW.next = some none ∨
      ∃ d g1, gW.next = some (some (d, g1)) ∧
        g1.image_width = gW.image_width ∧ g1.image_height = gW.image_height) :=
  ⟨C10_generator_u32_safety.1 camW 2,
    C10_generator_u32_safety.2.1 camW 2 2 (le_refl 2) (le_refl 2),
    C10_generator_u32_safety.2.2 gW (le_refl 2) (le_refl 2)⟩

/-- Mapping a constant function yields a replicate. -/
lemma map_const_replicate {α β : Type} (c : β) :
    ∀ l : List α, l.map (fun _ => c) = List.replicate l.length c := by
  intro l
  induction l with
  | nil => rfl
  | cons a as ih => simp [ih, List.replicate]

/-- Every element of a successfully collected list appears wrapped in the
source list of options. -/
lemma seqOption_mem {α : Type} :
    ∀ (l : List (Option α)) (L : List α), seqOption l = some L →
      ∀ a ∈ L, some a ∈ l := by
  intro l
  induction l with
  | nil =>
    intro L hL a ha
    have : L = [] := (Option.some_inj.mp hL).symm
    rw [this] at ha
    cases ha
  | cons o rest ih =>
    intro L hL a ha
    cases o with
    | none => exact Option.noConfusion hL
    | some b =>
      cases hrest : seqOption rest with
      | none =>
        rw [seqOption, hrest] at hL
        exact Option.noConfusion hL
      | some L1 =>
        rw [seqOption, hrest] at hL
        have hcons : b :: L1 = L := Option.some_inj.mp hL
        rw [← hcons] at ha
        rcases List.mem_cons.mp ha with rfl | ha'
        · exact List.mem_cons_self _ _
        · exact List.mem_cons_of_mem _ (ih L1 hrest a ha')

/-- Collecting the constant-miss results over any direction list yields
the corresponding list of sentinels. -/
lemma seqOption_sendK :
    ∀ l : List V3d,
      seqOption (l.map fun dir => rmW.send_ray_dist camW.center dir sceneK)
        = some (l.map fun _ => (-1 : ℝ)) := by
  intro l
  induction l with
  | nil => rfl
  | cons d rest ih =>
    simp only [List.map_cons, seqOption, sendK camW.center d, ih]

/-- The derived image height of the test configuration is 2. -/
lemma f64_as_u32_rmW :
    f64_as_u32 (((2 : ℕ) : ℝ) / rmW.aspect) = 2 := by
  have e2 : rmW.aspect = (1 : ℝ) := rfl
  rw [e2, div_one]
  unfold f64_as_u32
  rw [Int.floor_natCast]
  rfl

/-- RayGenerator::new on the test camera and a 2 by 2 image yields gK. -/
lemma newK : RayGenerator.new camW 2 2 = some gK := by
  simp only [RayGenerator.new]
  rw [if_neg (by omega : ¬ (2 = 0))]
  rfl

/-- The test generator holds exactly 4 remaining directions. -/
lemma lenK : (restFrom gK).length = 4 := by
  rw [length_restFrom]
  rfl

/-- Draining the test generator with the march fuel gives its full
remaining output. -/
lemma runK : runGen (2 * 2 + 1) gK = some (restFrom gK) := by
  apply runGen_restFrom (2 * 2 + 1) gK (le_refl 2) (le_refl 2)
  · exact Or.inl (show (0 : ℕ) < 2 by omega)
  · rw [lenK]
    omega

/-- The frame of the all-miss test configuration is four sentinels. -/
lemma frameDistancesK :
    rmW.frameDistances sceneK camW = some (List.replicate 4 (-1 : ℝ)) := by
  have e1 : rmW.image_width = 2 := rfl
  simp only [RayMarcher.frameDistances, f64_as_u32_rmW, e1, newK, runK]
  rw [seqOption_sendK (restFrom gK), map_const_replicate, lenK]

/-- The max_by fold over four sentinels returns the sentinel. -/
lemma maxByLastK : maxByLast (List.replicate 4 (-1 : ℝ)) = some (-1) := by
  show some _ = _
  norm_num [List.foldl]

/-- Counterexample to C2: in the 2 by 2 test frame every ray misses (all
four depths are the sentinel -1), yet march does not fail: it returns an
image, with every pixel black. -/
theorem C2_all_miss_counterexample :
    rmW.frameDistances sceneK camW = some (List.replicate 4 (-1 : ℝ)) ∧
    rmW.march sceneK camW
      = some ⟨List.replicate 4 ((0 : ℕ), (0 : ℕ), (0 : ℕ)), 2, 2⟩ := by
  refine ⟨frameDistancesK, ?_⟩
  simp only [RayMarcher.march, frameDistancesK, maxByLastK, f64_as_u32_rmW,
    List.map_replicate]
  norm_num
  refine ⟨rfl, ?_⟩
  rw [show rmW.image_width = (2 : ℕ) from rfl]
  exact f64_as_u32_rmW

/-- C2 amended: march takes the maximum over all per-ray depths,
sentinels included; that value equals the maximum over the non-miss
depths whenever some ray hits, and when every ray misses no assertion
fires: march produces an image whose pixels are all black. -/
theorem C2_march_max_over_all (rm : RayMarcher) (scene : Scene)
    (cam : Camera) (heps : 0 < rm.ray_dist_epsilon) (D : List ℝ)
    (hD : rm.frameDistances scene cam = some D) :
    (∀ d ∈ D, d = -1 ∨ 0 ≤ d) ∧
    ((∃ d ∈ D, 0 ≤ d) →
      ∃ M, maxByLast D = some M ∧
        maxByLast (D.filter fun d => 0 ≤ d) = some M) ∧
    (D ≠ [] → (∀ d ∈ D, d = (-1 : ℝ)) →
      ∃ img, rm.march scene cam = some img ∧
        img.pixels = List.replicate D.length ((0 : ℕ), (0 : ℕ), (0 : ℕ)) ∧
        img.image_width = rm.image_width) := by
  have helem : ∀ d ∈ D, d = -1 ∨ 0 ≤ d := by
    have hD' := hD
    simp only [RayMarcher.frameDistances] at hD'
    cases hnew : RayGenerator.new cam rm.image_width
        (f64_as_u32 ((rm.image_width : ℝ) / rm.aspect)) with
    | none =>
      simp only [hnew] at hD'
      exact Option.noConfusion hD'
    | some g =>
      simp only [hnew] at hD'
      cases hrun : runGen
          (rm.image_width * f64_as_u32 ((rm.image_width : ℝ) / rm.aspect) + 1)
          g with
      | none =>
        simp only [hrun] at hD'
        exact Option.noConfusion hD'
      | some dirs =>
        simp only [hrun] at hD'
        intro d hd
        have hsome := seqOption_mem _ _ hD' d hd
        obtain ⟨dir, _, hdir⟩ := List.mem_map.mp hsome
        exact sendLoop_nonneg rm scene cam.center dir heps rm.max_steps 0 d
          (le_refl 0) hdir
  refine ⟨helem, ?_, ?_⟩
  · rintro ⟨d0, hd0, hd0n⟩
    have hDne : D ≠ [] := List.ne_nil_of_mem hd0
    obtain ⟨M, hmax, hMem, hbound⟩ := maxByLast_spec D hDne
    have hMn : 0 ≤ M := le_trans hd0n (hbound d0 hd0)
    have hd0f : d0 ∈ D.filter fun d => 0 ≤ d := by
      rw [List.mem_filter]
      exact ⟨hd0, by simpa using hd0n⟩
    obtain ⟨M1, hmax1, hMem1, hbound1⟩ :=
      maxByLast_spec (D.filter fun d => 0 ≤ d) (List.ne_nil_of_mem hd0f)
    have hM1M : M1 ≤ M := hbound M1 (List.mem_of_mem_filter hMem1)
    have hMM1 : M ≤ M1 := by
      apply hbound1
      rw [List.mem_filter]
      exact ⟨hMem, by simpa using hMn⟩
    have : M1 = M := le_antisymm hM1M hMM1
    exact ⟨M, hmax, by rw [hmax1, this]⟩
  · intro hDne hall
    obtain ⟨M, hmax, hMem, _⟩ := maxByLast_spec D hDne
    simp only [RayMarcher.march, hD, hmax]
    refine ⟨_, rfl, ?_, rfl⟩
    show D.map _ = _
    calc D.map (fun d => if d < 0 then ((0 : ℕ), (0 : ℕ), (0 : ℕ))
            else ((f64_as_u8 ((1 - d / M) * 255)), (f64_as_u8 ((1 - d / M) * 255)),
              (f64_as_u8 ((1 - d / M) * 255))))
        = D.map (fun _ => ((0 : ℕ), (0 : ℕ), (0 : ℕ))) := by
          apply List.map_congr_left
          intro d hd
          rw [hall d hd]
          norm_num
      _ = List.replicate D.length ((0 : ℕ), (0 : ℕ), (0 : ℕ)) :=
          map_const_replicate _ D

/-- C7 (code bug): evaluating the PPM writer on a 3-wide, 2-high image.
The newline is emitted before every pixel whose index is divisible by
image_height (2), so the body has three lines of two pixels each, not one
line per scanline (two lines of three pixels) as the spec prescribes; the
second conjunct is the scanline layout the claim describes, which the
writer does not produce. -/
theorem C7_ppm_row_structure :
    save_as_ppm imgW
      = some ("P3\n3 2\n255\n10 11 12 13 14 15 \n20 21 22 23 24 25 \n30 31 32 33 34 35 ") ∧
    save_as_ppm imgW
      ≠ some ("P3\n3 2\n255\n10 11 12 13 14 15 20 21 22 \n23 24 25 30 31 32 33 34 35 ") := by
  constructor
  · decide
  · decide

/-- Witness for the amended C2 at the all-miss test frame. -/
theorem C2_march_max_over_all_witness :
    0 < rmW.ray_dist_epsilon ∧
    rmW.frameDistances sceneK camW = some (List.replicate 4 (-1 : ℝ)) ∧
    ((∀ d ∈ List.replicate 4 (-1 : ℝ), d = -1 ∨ 0 ≤ d) ∧
    ((∃ d ∈ List.replicate 4 (-1 : ℝ), 0 ≤ d) →
      ∃ M, maxByLast (List.replicate 4 (-1 : ℝ)) = some M ∧
        maxByLast ((List.replicate 4 (-1 : ℝ)).filter fun d => 0 ≤ d)
          = some M) ∧
    (List.replicate 4 (-1 : ℝ) ≠ [] →
      (∀ d ∈ List.replicate 4 (-1 : ℝ), d = (-1 : ℝ)) →
      ∃ img, rmW.march sceneK camW = some img ∧
        img.pixels = List.replicate (List.replicate 4 (-1 : ℝ)).length
          ((0 : ℕ), (0 : ℕ), (0 : ℕ)) ∧
        img.image_width = rmW.image_width)) :=
  ⟨by simp [rmW], frameDistancesK,
    C2_march_max_over_all rmW sceneK camW (by simp [rmW]) _ frameDistancesK⟩

/-- Witness for C8 at the constant-SDF test scene. -/
theorem C8_sentinel_classification_witness :
    0 < rmW.ray_dist_epsilon ∧
    rmW.send_ray_dist ⟨0, 0, 0⟩ ⟨0, 0, 1⟩ sceneK = some (-1) ∧
    (((-1 : ℝ) = -1 ∨ 0 ≤ (-1 : ℝ)) ∧ ((-1 : ℝ) < 0 ↔ (-1 : ℝ) = -1)) :=
  ⟨by simp [rmW], sendK ⟨0, 0, 0⟩ ⟨0, 0, 1⟩,
    C8_sentinel_classification rmW sceneK ⟨0, 0, 0⟩ ⟨0, 0, 1⟩
      (by simp [rmW]) (-1) (sendK ⟨0, 0, 0⟩ ⟨0, 0, 1⟩)⟩
